import Mathlib

/-!
Verification of the clock-face geometry and hand-manipulation engine of
`src/clock.py` (class `ClockFace`).  Angles are modelled as exact rational
numbers; the float constant `math.pi` is modelled as a parameter `pi : ℚ`
threaded through every definition.  Every property proved below holds for an
arbitrary positive value of that parameter: all of the source's angle
computations are scale-invariant in `pi` (angles are rational multiples of
`pi` wherever `pi`'s value could matter), so the idealised real-number
semantics of the source is captured without committing to a rational
approximation of π.  Pointer angles are taken as inputs in `(-pi, pi]`, the
range of `math.atan2`, whose trigonometry itself is outside the model.
-/

namespace Clock

/-- Model of Python `int(...)` applied to a number: truncation toward zero. -/
def pyInt (x : ℚ) : ℤ := if 0 ≤ x then ⌊x⌋ else -⌊-x⌋

/-- Model of Python 2 `int(round(...))`: `round` rounds half away from zero and
returns an integral value, which `int` then converts exactly. -/
def pyRound (x : ℚ) : ℤ := if 0 ≤ x then ⌊x + 1/2⌋ else -⌊-x + 1/2⌋

/-- The three hands of the clock, in the source's fixed order
`['hour', 'minutes', 'seconds']`. -/
inductive Hand : Type
  | hour
  | minutes
  | seconds
deriving DecidableEq

/-- Contents of the dict `self._hand_angles` of `ClockFace`. -/
structure HandAngles : Type where
  hour : ℚ
  minutes : ℚ
  seconds : ℚ
deriving DecidableEq

/-- Dictionary lookup `self._hand_angles[hand]`. -/
def HandAngles.get (a : HandAngles) : Hand → ℚ
  | Hand.hour => a.hour
  | Hand.minutes => a.minutes
  | Hand.seconds => a.seconds

/-- Dictionary assignment `self._hand_angles[hand] = v`. -/
def HandAngles.set (a : HandAngles) : Hand → ℚ → HandAngles
  | Hand.hour, v => { a with hour := v }
  | Hand.minutes, v => { a with minutes := v }
  | Hand.seconds, v => { a with seconds := v }

/-- Contents of the field `self._am_pm`, which holds `'AM'` or `'PM'`. -/
inductive AmPm : Type
  | AM
  | PM
deriving DecidableEq

/-- Embedding of `ClockFace.toggle_am_pm` (clock.py lines 1033–1037). -/
def toggle_am_pm : AmPm → AmPm
  | AmPm.AM => AmPm.PM
  | AmPm.PM => AmPm.AM

/-- Model of Python's `datetime` value, restricted to the time fields the
program reads; the date part is passed through unchanged by the source and
is omitted. -/
structure PyDatetime : Type where
  hour : ℤ
  minute : ℤ
  second : ℤ
deriving DecidableEq

/-- Model of the `datetime(...)` constructor: it raises `ValueError` on an
out-of-range field (hour not in 0–23, minute or second not in 0–59),
modelled as `none`. -/
def datetime (hour minute second : ℤ) : Option PyDatetime :=
  if 0 ≤ hour ∧ hour ≤ 23 ∧ 0 ≤ minute ∧ minute ≤ 59 ∧ 0 ≤ second ∧ second ≤ 59 then
    some ⟨hour, minute, second⟩
  else none

/-- Constant `_ANGLE_TOLERANCE = 0.3` (clock.py line 109), in radians. -/
def ANGLE_TOLERANCE : ℚ := 3/10

/-- Mutable state of a `ClockFace` instance, restricted to the fields the
claims are about.  `tickRunning` records whether the 1-second GObject timer
driving `_update_cb` is live. -/
structure ClockState : Type where
  handAngles : HandAngles
  handSizes : Hand → ℚ
  amPm : AmPm
  handBeingGrabbed : Option Hand
  grabHandsMode : Bool
  active : Bool
  tickRunning : Bool
  oldMinute : ℤ
  time : PyDatetime

/-- Embedding of `ClockFace._update_cb` (clock.py lines 945–975): the wall
clock reading `datetime.now()` is passed in as `h`, `m`, `s`; the callback
recomputes the three hand angles and the AM/PM flag, and emits the
`time_minute` signal iff the minute changed (returned `Bool`).  The timer
keeps running iff the callback returns `self._active and not
self.grab_hands_mode`, recorded in `tickRunning`. -/
def update_cb (pi : ℚ) (st : ClockState) (h m s : ℕ) : ClockState × Bool :=
  let angles : HandAngles :=
    { hour := pi / 6 * ((h % 12 : ℕ) : ℚ) + pi / 360 * (m : ℚ)
      minutes := pi / 30 * (m : ℚ)
      seconds := pi / 30 * (s : ℚ) }
  let am_pm := if h < 12 then AmPm.AM else AmPm.PM
  let emitted := decide (st.oldMinute ≠ (m : ℤ))
  ({ st with
      handAngles := angles
      amPm := am_pm
      time := ⟨(h : ℤ), (m : ℤ), (s : ℤ)⟩
      oldMinute := (m : ℤ)
      tickRunning := st.active && !st.grabHandsMode },
   emitted)

/-- Local variable `hour` of `ClockFace._get_time_from_hands_angles`
(clock.py lines 982–989): floor when the minute hand is more than one tick
past 12, Python round otherwise, reduced `% 12`, then `+ 12` when PM. -/
def hands_hour (pi : ℚ) (angles : HandAngles) (am_pm : AmPm) : ℤ :=
  let hour : ℤ :=
    if angles.minutes > pi / 30 then
      pyInt ((angles.hour * 12) / (pi * 2)) % 12
    else
      pyRound ((angles.hour * 12) / (pi * 2)) % 12
  if am_pm = AmPm.PM then hour + 12 else hour

/-- Local variable `minute` of `ClockFace._get_time_from_hands_angles`
(clock.py lines 991–992).  Note the source applies no reduction mod 60. -/
def hands_minute (pi : ℚ) (angles : HandAngles) : ℤ :=
  pyRound ((angles.minutes * 60) / (pi * 2))

/-- Embedding of `ClockFace._get_time_from_hands_angles` (clock.py lines
977–998): builds a `datetime` from the hour and minute read off the hand
angles, with `second = 0`. -/
def get_time_from_hands_angles (pi : ℚ) (angles : HandAngles) (am_pm : AmPm) :
    Option PyDatetime :=
  datetime (hands_hour pi angles am_pm) (hands_minute pi angles) 0

/-- Embedding of `ClockFace.get_time` (clock.py lines 1000–1008). -/
def get_time (pi : ℚ) (st : ClockState) : Option PyDatetime :=
  if st.grabHandsMode then get_time_from_hands_angles pi st.handAngles st.amPm
  else some st.time

/-- Embedding of `ClockFace.change_grab_hands_mode` (clock.py lines
1039–1067): sets `grab_hands_mode`; on disabling it restarts the 1-second
timer with `GObject.timeout_add(1000, self._update_cb)`.  The
connect/disconnect of the pointer callbacks and the cursor change are GUI
glue outside the model.  The method ends with `self.emit("time_minute")`,
hence the returned flag is always `true`. -/
def change_grab_hands_mode (st : ClockState) (toggle_grab : Bool) : ClockState × Bool :=
  let st1 := { st with grabHandsMode := toggle_grab }
  if toggle_grab then
    (st1, true)
  else
    ({ st1 with tickRunning := true }, true)

/-- Helper `in_range` inside `ClockFace._press_cb` (clock.py lines
1091–1101): the hand's angle is normalised by subtracting `2π * int(angle /
2π)` and compared against `angle ± _ANGLE_TOLERANCE` (half-open on the
right). -/
def in_range (pi : ℚ) (hand_angle angle : ℚ) : Bool :=
  let hand_normal := hand_angle - (pi * 2) * ((pyInt (hand_angle / (pi * 2))) : ℚ)
  decide (hand_normal ≥ angle - ANGLE_TOLERANCE ∧ hand_normal < angle + ANGLE_TOLERANCE)

/-- Hand-selection loop of `ClockFace._press_cb` (clock.py lines 1103–1108):
the first hand, in the order hour, minutes, seconds, whose angle is in range
of the pointer angle and whose size reaches the pointer distance.  `find?`
models the `for`/`break`: a hand failing either test leaves the loop running. -/
def find_grabbable_hand (pi : ℚ) (angles : HandAngles) (sizes : Hand → ℚ)
    (pointer_angle pointer_distance : ℚ) : Option Hand :=
  [Hand.hour, Hand.minutes, Hand.seconds].find? fun hand =>
    in_range pi (angles.get hand) pointer_angle && decide (pointer_distance ≤ sizes hand)

/-- Embedding of `ClockFace._press_cb` (clock.py lines 1069–1122).  The
pointer angle `pa0` is the result of `math.atan2` (in `(-pi, pi]`) and
`pointer_distance` the result of `math.hypot`, both taken as inputs since the
trigonometry of the pointer coordinates is outside the model; likewise
`in_am_pm_area` is the outcome of the rectangular AM/PM-zone test on the raw
coordinates (lines 1111–1117).  Returns the new state and whether
`time_minute` was emitted. -/
def press_cb (pi : ℚ) (st : ClockState) (button1 : Bool) (pa0 pointer_distance : ℚ)
    (in_am_pm_area : Bool) : ClockState × Bool :=
  if !button1 then (st, false) else
  let pointer_angle := if pa0 < 0 then pa0 + pi * 2 else pa0
  let st1 :=
    match find_grabbable_hand pi st.handAngles st.handSizes pointer_angle pointer_distance with
    | some hand => { st with handBeingGrabbed := some hand }
    | none => st
  if st1.handBeingGrabbed = none ∧ in_am_pm_area = true then
    ({ st1 with amPm := toggle_am_pm st1.amPm }, true)
  else
    (st1, false)

/-- Closed form of the loop `while tmp >= math.pi * 2: tmp -= math.pi * 2`
(clock.py lines 1171–1172): subtract `2π` as many times as the loop would.
`reduce_2pi_recurrence` below proves this satisfies the loop's defining
recurrence for positive `pi`. -/
def reduce_2pi (pi x : ℚ) : ℚ := x - pi * 2 * ((max ⌊x / (pi * 2)⌋ 0 : ℤ) : ℚ)

/-- Embedding of `ClockFace._motion_cb` (clock.py lines 1124–1183).  The raw
pointer angle `pa0` is the result of `math.atan2`, taken as input.  Mirrors
the source exactly: in the minutes branch the local `pointer_angle` is
overwritten with the snapped angle before the final generic assignment
`self._hand_angles[self._hand_being_grabbed] = pointer_angle`, so the stored
minutes angle is the snapped one; in the hour branch it is not overwritten. -/
def motion_cb (pi : ℚ) (st : ClockState) (button1 : Bool) (pa0 : ℚ) : ClockState :=
  match st.handBeingGrabbed with
  | none => st
  | some grabbed =>
    if !button1 then st else
    let pointer_angle := if pa0 < 0 then pa0 + pi * 2 else pa0
    if grabbed = Hand.minutes then
      let pointer_angle := ((pyInt ((pointer_angle * 60) / (pi * 2))) : ℚ) * (pi * 2) / 60
      let hour1 := st.handAngles.hour + (pointer_angle - st.handAngles.minutes) / 12
      let hour2 :=
        if pointer_angle - st.handAngles.minutes > pi then hour1 - pi * 2 / 12
        else if pointer_angle - st.handAngles.minutes < -pi then hour1 + pi * 2 / 12
        else hour1
      let next :=
        if hour2 ≥ pi * 2 then (hour2 - pi * 2, toggle_am_pm st.amPm)
        else if hour2 < 0 then (hour2 + pi * 2, toggle_am_pm st.amPm)
        else (hour2, st.amPm)
      { st with
          handAngles := ({ st.handAngles with hour := next.1 }).set grabbed pointer_angle
          amPm := next.2 }
    else if grabbed = Hand.hour then
      let tmp := reduce_2pi pi (st.handAngles.hour * 12)
      let minutes' := ((pyInt ((tmp * 60) / (pi * 2))) : ℚ) * (pi * 2) / 60
      let am_pm :=
        if |st.handAngles.hour - pointer_angle| > pi then toggle_am_pm st.amPm
        else st.amPm
      { st with
          handAngles := ({ st.handAngles with minutes := minutes' }).set grabbed pointer_angle
          amPm := am_pm }
    else
      { st with handAngles := st.handAngles.set grabbed pointer_angle }

/-- Embedding of `ClockFace._release_cb` (clock.py lines 1185–1192): emits
`time_minute` (returned `Bool`) iff the grabbed hand is hour or minutes, and
clears the grabbed-hand selector. -/
def release_cb (st : ClockState) : ClockState × Bool :=
  match st.handBeingGrabbed with
  | none => (st, false)
  | some hand =>
    ({ st with handBeingGrabbed := none },
     decide (hand = Hand.hour ∨ hand = Hand.minutes))

/-- Run of a sequence of motion events (button 1 held) during one drag
gesture. -/
def run_motions (pi : ℚ) (st : ClockState) : List ℚ → ClockState
  | [] => st
  | pa :: rest => run_motions pi (motion_cb pi st true pa) rest

/-- Number of AM/PM toggles performed along a sequence of motion events
(each motion event toggles the flag at most once). -/
def toggle_count (pi : ℚ) (st : ClockState) : List ℚ → ℕ
  | [] => 0
  | pa :: rest =>
      (if (motion_cb pi st true pa).amPm = st.amPm then 0 else 1) +
        toggle_count pi (motion_cb pi st true pa) rest

/-- Concrete state used to instantiate the theorems at concrete inputs: a
fresh clock at 12:00:00, hand sizes 50 pixels, grab mode off. -/
def sampleState : ClockState :=
  { handAngles := ⟨0, 0, 0⟩
    handSizes := fun _ => 50
    amPm := AmPm.AM
    handBeingGrabbed := none
    grabHandsMode := false
    active := true
    tickRunning := true
    oldMinute := 0
    time := ⟨0, 0, 0⟩ }

/-- Concrete hand angles used to instantiate theorems: hour hand at 3
o'clock (angle π/2), minutes hand at 30 minutes (angle π). -/
def sampleAngles (pi : ℚ) : HandAngles := ⟨pi / 2, pi, 0⟩

/-- Hand angles with the minutes hand within half a tick below a full turn:
minutes angle `2π − π/120`. -/
def overflowAngles (pi : ℚ) : HandAngles := ⟨0, pi * 2 - pi / 120, 0⟩

/-- Concrete state with grab mode on and the given hand grabbed, used to
instantiate theorems at concrete inputs. -/
def grabbedState (hand : Hand) : ClockState :=
  { sampleState with handBeingGrabbed := some hand, grabHandsMode := true }

/-- Specification-side description of the minutes-drag motion step, written
from the spec's words for comparison with `motion_cb`: snap the pointer
angle to a whole 1/60 turn, adjust the hour angle by `delta/12` with a
`∓2π/12` wrap correction when `|delta| > π`, and toggle AM/PM exactly when
the resulting hour angle falls outside `[0, 2π)`, renormalising it by
`∓2π`. -/
def minutes_drag_spec (pi : ℚ) (st : ClockState) (pa0 : ℚ) : ClockState :=
  let pa := if pa0 < 0 then pa0 + pi * 2 else pa0
  let snapped := ((pyInt ((pa * 60) / (pi * 2))) : ℚ) * (pi * 2) / 60
  let hour1 := st.handAngles.hour + (snapped - st.handAngles.minutes) / 12
  let hour2 :=
    if snapped - st.handAngles.minutes > pi then hour1 - pi * 2 / 12
    else if snapped - st.handAngles.minutes < -pi then hour1 + pi * 2 / 12
    else hour1
  { st with
      handAngles :=
        { hour := if hour2 ≥ pi * 2 then hour2 - pi * 2
                  else if hour2 < 0 then hour2 + pi * 2 else hour2
          minutes := snapped
          seconds := st.handAngles.seconds }
      amPm := if hour2 ≥ pi * 2 ∨ hour2 < 0 then toggle_am_pm st.amPm else st.amPm }

/-! ### Basic facts about the Python `int` and `round` models -/

theorem pyInt_of_nonneg {x : ℚ} (hx : 0 ≤ x) : pyInt x = ⌊x⌋ := if_pos hx

theorem pyRound_of_nonneg {x : ℚ} (hx : 0 ≤ x) : pyRound x = ⌊x + 1/2⌋ := if_pos hx

theorem pyInt_intCast (k : ℤ) : pyInt (k : ℚ) = k := by
  unfold pyInt
  rcases le_or_lt 0 k with hk | hk
  · rw [if_pos (by exact_mod_cast hk), Int.floor_intCast]
  · rw [if_neg (by exact_mod_cast not_le.mpr hk), ← Int.cast_neg, Int.floor_intCast, neg_neg]

theorem pyRound_intCast (k : ℤ) : pyRound (k : ℚ) = k := by
  have hhalf : ⌊(1/2 : ℚ)⌋ = 0 := by norm_num [Int.floor_eq_zero_iff]
  unfold pyRound
  rcases le_or_lt 0 k with hk | hk
  · rw [if_pos (by exact_mod_cast hk), Int.floor_int_add, hhalf, add_zero]
  · rw [if_neg (by exact_mod_cast not_le.mpr hk), ← Int.cast_neg, Int.floor_int_add, hhalf,
      add_zero, neg_neg]

/-! ### The angle-to-time readout -/

/-- Helper: on a nonnegative hour angle (the documented domain of hand
angles), the truncation `int(...)` in `_get_time_from_hands_angles` is a
floor properly, and the hour readout is the floor/round policy followed by
the mod-12 reduction and the PM shift. -/
theorem hands_hour_floor_form (pi : ℚ) (hpi : 0 < pi) (angles : HandAngles) (am_pm : AmPm)
    (hhour : 0 ≤ angles.hour) :
    hands_hour pi angles am_pm =
      (if angles.minutes > pi / 30 then ⌊(angles.hour * 12) / (pi * 2)⌋
       else ⌊(angles.hour * 12) / (pi * 2) + 1/2⌋) % 12
      + (if am_pm = AmPm.PM then 12 else 0) := by
  have hx : (0:ℚ) ≤ (angles.hour * 12) / (pi * 2) := by positivity
  unfold hands_hour
  rw [pyInt_of_nonneg hx, pyRound_of_nonneg hx]
  rcases am_pm with _ | _ <;> by_cases hc : angles.minutes > pi / 30 <;>
    simp [hc]

/-- Helper: the `datetime` constructor succeeds exactly on in-range fields
and then copies them. -/
theorem datetime_eq_some {h m s : ℤ} {t : PyDatetime} (ht : datetime h m s = some t) :
    t.hour = h ∧ t.minute = m ∧ t.second = s := by
  unfold datetime at ht
  by_cases hok : 0 ≤ h ∧ h ≤ 23 ∧ 0 ≤ m ∧ m ≤ 59 ∧ 0 ≤ s ∧ s ≤ 59
  · rw [if_pos hok] at ht
    cases ht
    exact ⟨rfl, rfl, rfl⟩
  · rw [if_neg hok] at ht
    cases ht

/-- C1: round-trip.  For every time with hour 0–23 and minute 0–59, setting
the hand angles as `_update_cb` does (hour angle `π/6·(hour mod 12) +
π/360·minute`, minutes angle `π/30·minute`, AM/PM from `hour < 12`) and
reading the time back with `_get_time_from_hands_angles` returns exactly the
12-hour hour (`hour mod 12`) and the minute. -/
theorem tick_roundtrip (pi : ℚ) (st : ClockState) (h m s : ℕ)
    (hpi : 0 < pi) (hh : h ≤ 23) (hm : m ≤ 59) :
    hands_hour pi (update_cb pi st h m s).1.handAngles (update_cb pi st h m s).1.amPm % 12
      = (h : ℤ) % 12 ∧
    hands_minute pi (update_cb pi st h m s).1.handAngles = (m : ℤ) := by
  have hpi0 : pi ≠ 0 := ne_of_gt hpi
  have hhour : (update_cb pi st h m s).1.handAngles.hour
      = pi / 6 * ((h % 12 : ℕ) : ℚ) + pi / 360 * (m : ℚ) := rfl
  have hmin : (update_cb pi st h m s).1.handAngles.minutes = pi / 30 * (m : ℚ) := rfl
  have hampm : (update_cb pi st h m s).1.amPm = (if h < 12 then AmPm.AM else AmPm.PM) := rfl
  have hx : (((pi / 6 * ((h % 12 : ℕ) : ℚ) + pi / 360 * (m : ℚ))) * 12) / (pi * 2)
      = ((h % 12 : ℕ) : ℚ) + (m : ℚ) / 60 := by
    field_simp
    ring
  have hk : ((h % 12 : ℕ) : ℤ) = (h : ℤ) % 12 := by omega
  have hcast : ((h % 12 : ℕ) : ℚ) = (((h % 12 : ℕ) : ℤ) : ℚ) := by norm_cast
  have hm60 : (0:ℚ) ≤ (m : ℚ) / 60 ∧ (m : ℚ) / 60 < 1 := by
    constructor
    · positivity
    · have : (m:ℚ) ≤ 59 := by exact_mod_cast hm
      linarith
  constructor
  · rw [hands_hour_floor_form pi hpi _ _ (by rw [hhour]; positivity)]
    rw [hmin, hhour, hx]
    by_cases hm2 : 2 ≤ m
    · have hc : pi / 30 * (m : ℚ) > pi / 30 := by
        have h2 : (2:ℚ) ≤ (m:ℚ) := by exact_mod_cast hm2
        nlinarith
      have hfloor : ⌊((h % 12 : ℕ) : ℚ) + (m : ℚ) / 60⌋ = ((h % 12 : ℕ) : ℤ) := by
        rw [hcast, Int.floor_int_add,
          Int.floor_eq_zero_iff.mpr ⟨hm60.1, hm60.2⟩, add_zero]
      rw [if_pos hc, hfloor, hk, hampm]
      by_cases h12 : h < 12 <;> simp only [h12, if_true, if_false] <;> omega
    · have hm1 : (m:ℚ) ≤ 1 := by
        have : m ≤ 1 := by omega
        exact_mod_cast this
      have hc : ¬ pi / 30 * (m : ℚ) > pi / 30 := by
        rw [not_lt]
        nlinarith
      have hfloor : ⌊((h % 12 : ℕ) : ℚ) + (m : ℚ) / 60 + 1/2⌋ = ((h % 12 : ℕ) : ℤ) := by
        have hr0 : (0:ℚ) ≤ (m : ℚ) / 60 + 1/2 := by positivity
        have hr1 : (m : ℚ) / 60 + 1/2 < 1 := by linarith
        rw [hcast, add_assoc, Int.floor_int_add,
          Int.floor_eq_zero_iff.mpr ⟨hr0, hr1⟩, add_zero]
      rw [if_neg hc, hfloor, hk, hampm]
      by_cases h12 : h < 12 <;> simp only [h12, if_true, if_false] <;> omega
  · have hy : (((pi / 30 * (m : ℚ))) * 60) / (pi * 2) = (((m:ℕ) : ℤ) : ℚ) := by
      push_cast
      field_simp
      ring
    unfold hands_minute
    rw [hmin, hy, pyRound_intCast]

/-- Witness for C1 at the scenario time 14:05. -/
theorem tick_roundtrip_witness :
    hands_hour (355/113) (update_cb (355/113) sampleState 14 5 0).1.handAngles
        (update_cb (355/113) sampleState 14 5 0).1.amPm % 12 = ((14:ℕ) : ℤ) % 12 ∧
    hands_minute (355/113) (update_cb (355/113) sampleState 14 5 0).1.handAngles = ((5:ℕ) : ℤ) :=
  tick_roundtrip (355/113) sampleState 14 5 0 (by norm_num) (by norm_num) (by norm_num)

/-- C2: asymmetric hour readout.  On the hand-angle domain (nonnegative hour
angle, where Python's `int` truncation coincides with the floor), the hour
derived from the hands is `floor(hour_angle·12/2π) mod 12` when the minutes
angle is strictly greater than `π/30` and `round(hour_angle·12/2π) mod 12`
otherwise (`round` = half away from zero, hence `⌊· + 1/2⌋` here), plus 12
exactly when the flag is PM; and that value is the hour field of the
returned datetime. -/
theorem hands_hour_policy (pi : ℚ) (angles : HandAngles) (am_pm : AmPm)
    (hpi : 0 < pi) (hhour : 0 ≤ angles.hour) :
    hands_hour pi angles am_pm =
      (if angles.minutes > pi / 30 then ⌊(angles.hour * 12) / (pi * 2)⌋
       else ⌊(angles.hour * 12) / (pi * 2) + 1/2⌋) % 12
      + (if am_pm = AmPm.PM then 12 else 0) ∧
    ∀ t, get_time_from_hands_angles pi angles am_pm = some t →
      t.hour = hands_hour pi angles am_pm := by
  refine ⟨hands_hour_floor_form pi hpi angles am_pm hhour, ?_⟩
  intro t ht
  unfold get_time_from_hands_angles at ht
  exact (datetime_eq_some ht).1

/-- Witness for C2 at the 3:30 PM hand positions. -/
theorem hands_hour_policy_witness :
    hands_hour (355/113) (sampleAngles (355/113)) AmPm.PM =
      (if (sampleAngles (355/113)).minutes > (355/113 : ℚ) / 30 then
        ⌊((sampleAngles (355/113)).hour * 12) / ((355/113 : ℚ) * 2)⌋
       else ⌊((sampleAngles (355/113)).hour * 12) / ((355/113 : ℚ) * 2) + 1/2⌋) % 12
      + (if (AmPm.PM : AmPm) = AmPm.PM then 12 else 0) :=
  (hands_hour_policy (355/113) (sampleAngles (355/113)) AmPm.PM (by norm_num)
    (by norm_num [sampleAngles])).1

/-- Counterexample to C3 as stated: at a minutes angle within half a tick
below `2π` the code computes minute 60 (there is no reduction mod 60 in the
source), not the 0 the claim's `mod 60` formula gives, and the `datetime`
constructor then raises. -/
theorem minute_mod_sixty_cex :
    hands_minute (355/113) (overflowAngles (355/113)) = 60 ∧
    hands_minute (355/113) (overflowAngles (355/113)) % 60 = 0 ∧
    get_time_from_hands_angles (355/113) (overflowAngles (355/113)) AmPm.AM = none := by
  have h60 : hands_minute (355/113) (overflowAngles (355/113)) = 60 := by
    norm_num [hands_minute, overflowAngles, pyRound]
  refine ⟨h60, by rw [h60]; rfl, ?_⟩
  unfold get_time_from_hands_angles datetime
  rw [h60, if_neg]
  rintro ⟨-, -, -, hle, -⟩
  norm_num at hle

/-- C3 as amended: the minute read from the hands is
`round(minutes_angle·60/2π)` with NO reduction mod 60, and the second is
always 0; the minute lands in 0–59 for minutes angles in `[0, 2π·119/120)`,
but within half a tick below `2π` it is 60 and the `datetime` constructor
rejects it. -/
theorem hands_minute_readout (pi : ℚ) (angles : HandAngles) (am_pm : AmPm) (hpi : 0 < pi) :
    hands_minute pi angles = pyRound ((angles.minutes * 60) / (pi * 2)) ∧
    (∀ t, get_time_from_hands_angles pi angles am_pm = some t →
      t.minute = hands_minute pi angles ∧ t.second = 0) ∧
    (0 ≤ angles.minutes → angles.minutes < pi * 2 * (119/120) →
      0 ≤ hands_minute pi angles ∧ hands_minute pi angles ≤ 59) ∧
    (pi * 2 * (119/120) ≤ angles.minutes → angles.minutes < pi * 2 →
      hands_minute pi angles = 60 ∧ get_time_from_hands_angles pi angles am_pm = none) := by
  have hpi2 : (0:ℚ) < pi * 2 := by positivity
  refine ⟨rfl, ?_, ?_, ?_⟩
  · intro t ht
    unfold get_time_from_hands_angles at ht
    exact ⟨((datetime_eq_some ht).2.1).symm ▸ rfl, (datetime_eq_some ht).2.2⟩
  · intro h0 h1
    have hx0 : (0:ℚ) ≤ (angles.minutes * 60) / (pi * 2) :=
      div_nonneg (mul_nonneg h0 (by norm_num)) (le_of_lt hpi2)
    have hx1 : (angles.minutes * 60) / (pi * 2) < 119/2 := by
      rw [div_lt_iff₀ hpi2]
      linarith
    have heq : hands_minute pi angles = ⌊(angles.minutes * 60) / (pi * 2) + 1/2⌋ :=
      pyRound_of_nonneg hx0
    constructor
    · rw [heq]
      exact Int.le_floor.mpr (by push_cast; linarith)
    · rw [heq]
      have : ⌊(angles.minutes * 60) / (pi * 2) + 1/2⌋ < 60 :=
        Int.floor_lt.mpr (by push_cast; linarith)
      omega
  · intro h1 h2
    have hx0 : (0:ℚ) ≤ (angles.minutes * 60) / (pi * 2) := by
      have : (0:ℚ) ≤ angles.minutes := le_trans (by positivity) h1
      exact div_nonneg (mul_nonneg this (by norm_num)) (le_of_lt hpi2)
    have hxlo : (119:ℚ)/2 ≤ (angles.minutes * 60) / (pi * 2) := by
      rw [le_div_iff₀ hpi2]
      linarith
    have hxhi : (angles.minutes * 60) / (pi * 2) < 60 := by
      rw [div_lt_iff₀ hpi2]
      linarith
    have h60 : hands_minute pi angles = 60 := by
      rw [hands_minute, pyRound_of_nonneg hx0, Int.floor_eq_iff]
      constructor
      · push_cast
        linarith
      · push_cast
        linarith
    refine ⟨h60, ?_⟩
    unfold get_time_from_hands_angles datetime
    rw [h60, if_neg]
    rintro ⟨-, -, -, hle, -⟩
    norm_num at hle

/-- Witness for the amended C3 at the 3:30 hand positions. -/
theorem hands_minute_readout_witness :
    hands_minute (355/113) (sampleAngles (355/113)) =
      pyRound (((sampleAngles (355/113)).minutes * 60) / ((355/113 : ℚ) * 2)) :=
  (hands_minute_readout (355/113) (sampleAngles (355/113)) AmPm.AM (by norm_num)).1

/-! ### Structure of the motion callback -/

/-- Helper: a motion event never changes which hand is grabbed (nor grab
mode, activity, sizes, stored time). -/
theorem motion_preserves_grabbed (pi : ℚ) (st : ClockState) (b : Bool) (pa0 : ℚ) :
    (motion_cb pi st b pa0).handBeingGrabbed = st.handBeingGrabbed ∧
    (motion_cb pi st b pa0).grabHandsMode = st.grabHandsMode := by
  unfold motion_cb
  rcases hG : st.handBeingGrabbed with _ | g
  · exact ⟨hG, rfl⟩
  · cases b
    · exact ⟨hG, rfl⟩
    · cases g <;> exact ⟨rfl, rfl⟩

/-- Helper: with the minutes hand grabbed, the stored minutes angle after a
motion event is the snapped pointer angle (the source overwrites its local
`pointer_angle` with the snapped value before the final assignment). -/
theorem motion_minutes_stores (pi : ℚ) (st : ClockState) (pa0 : ℚ)
    (hg : st.handBeingGrabbed = some Hand.minutes) :
    (motion_cb pi st true pa0).handAngles.minutes =
      ((pyInt (((if pa0 < 0 then pa0 + pi * 2 else pa0) * 60) / (pi * 2))) : ℚ)
        * (pi * 2) / 60 := by
  unfold motion_cb
  rw [hg]
  rfl

/-- Helper: with the hour hand grabbed, the stored hour angle after a motion
event is the raw normalized pointer angle, and the coupled minutes angle is
snapped from the reduced hour angle. -/
theorem motion_hour_stores (pi : ℚ) (st : ClockState) (pa0 : ℚ)
    (hg : st.handBeingGrabbed = some Hand.hour) :
    (motion_cb pi st true pa0).handAngles.hour = (if pa0 < 0 then pa0 + pi * 2 else pa0) ∧
    (motion_cb pi st true pa0).handAngles.minutes =
      ((pyInt (((reduce_2pi pi (st.handAngles.hour * 12)) * 60) / (pi * 2))) : ℚ)
        * (pi * 2) / 60 := by
  unfold motion_cb
  rw [hg]
  exact ⟨rfl, rfl⟩

/-- Helper: with the seconds hand grabbed, the stored seconds angle after a
motion event is the raw normalized pointer angle. -/
theorem motion_seconds_stores (pi : ℚ) (st : ClockState) (pa0 : ℚ)
    (hg : st.handBeingGrabbed = some Hand.seconds) :
    (motion_cb pi st true pa0).handAngles.seconds = (if pa0 < 0 then pa0 + pi * 2 else pa0) := by
  unfold motion_cb
  rw [hg]
  rfl

set_option maxHeartbeats 1000000 in
/-- Helper: the minutes-drag branch of `motion_cb` computes exactly the
specification-shaped step `minutes_drag_spec`. -/
theorem motion_minutes_eq (pi : ℚ) (st : ClockState) (pa0 : ℚ)
    (hg : st.handBeingGrabbed = some Hand.minutes) :
    motion_cb pi st true pa0 = minutes_drag_spec pi st pa0 := by
  unfold motion_cb minutes_drag_spec
  rw [hg]
  simp only [Bool.not_true, Bool.false_eq_true, if_false, reduceIte, HandAngles.set]
  split_ifs <;> first
    | rfl
    | (exfalso
       rename_i h
       first
         | (rcases h with hc | hc <;> linarith)
         | (push_neg at h
            rcases h with ⟨hc1, hc2⟩
            linarith))
    | simp_all

/-- Helper: `reduce_2pi` satisfies the defining recurrence of the source's
loop `while tmp >= math.pi * 2: tmp -= math.pi * 2`, certifying the closed
form against the loop. -/
theorem reduce_2pi_recurrence (pi x : ℚ) (hpi : 0 < pi) :
    reduce_2pi pi x = if x ≥ pi * 2 then reduce_2pi pi (x - pi * 2) else x := by
  have h2pi : (0:ℚ) < pi * 2 := by positivity
  unfold reduce_2pi
  by_cases hx : x ≥ pi * 2
  · rw [if_pos hx]
    have h1 : (1:ℤ) ≤ ⌊x / (pi * 2)⌋ := by
      rw [Int.le_floor]
      rw [show ((1:ℤ):ℚ) = 1 by norm_num, le_div_iff₀ h2pi]
      linarith
    have hsub : (x - pi * 2) / (pi * 2) = x / (pi * 2) - 1 := by
      field_simp
    have hfl : ⌊x / (pi * 2) - 1⌋ = ⌊x / (pi * 2)⌋ - 1 := by
      rw [show (1:ℚ) = ((1:ℤ):ℚ) by norm_num, Int.floor_sub_int]
    rw [hsub, hfl, max_eq_left (by omega), max_eq_left (by omega)]
    push_cast
    ring
  · rw [if_neg hx]
    have h0 : ⌊x / (pi * 2)⌋ ≤ 0 := by
      have hlt : x / (pi * 2) < 1 := by
        rw [div_lt_one h2pi]
        linarith
      have := Int.floor_lt.mpr (by rw [show ((1:ℤ):ℚ) = 1 by norm_num]; exact hlt)
      omega
    rw [max_eq_right h0]
    push_cast
    ring

/-- Helper: on a nonnegative input the reduced angle lies in `[0, 2π)`. -/
theorem reduce_2pi_bounds (pi x : ℚ) (hpi : 0 < pi) (hx : 0 ≤ x) :
    0 ≤ reduce_2pi pi x ∧ reduce_2pi pi x < pi * 2 := by
  have h2pi : (0:ℚ) < pi * 2 := by positivity
  have hfl : (0:ℤ) ≤ ⌊x / (pi * 2)⌋ :=
    Int.le_floor.mpr (by rw [show ((0:ℤ):ℚ) = 0 by norm_num]; positivity)
  unfold reduce_2pi
  rw [max_eq_left hfl]
  have hle := Int.floor_le (x / (pi * 2))
  have hlt := Int.lt_floor_add_one (x / (pi * 2))
  constructor
  · have h := mul_le_mul_of_nonneg_left hle (le_of_lt h2pi)
    rw [mul_div_cancel₀ _ (ne_of_gt h2pi)] at h
    linarith
  · have h := mul_lt_mul_of_pos_left hlt h2pi
    rw [mul_div_cancel₀ _ (ne_of_gt h2pi)] at h
    push_cast at h ⊢
    linarith

/-- Helper: a raw `atan2` angle in `(-π, π]` normalises into `[0, 2π)`. -/
theorem normalized_range (pi : ℚ) (pa0 : ℚ) (hpi : 0 < pi) (h1 : -pi < pa0) (h2 : pa0 ≤ pi) :
    0 ≤ (if pa0 < 0 then pa0 + pi * 2 else pa0) ∧
    (if pa0 < 0 then pa0 + pi * 2 else pa0) < pi * 2 := by
  by_cases h : pa0 < 0
  · rw [if_pos h]
    constructor <;> linarith
  · rw [if_neg h]
    push_neg at h
    constructor <;> linarith

/-- Helper: snapping any angle in `[0, 2π)` down to a whole 1/60 turn yields
`k·π/30` for some tick index `k ≤ 59`. -/
theorem snapped_is_tick (pi : ℚ) (pa : ℚ) (hpi : 0 < pi) (h0 : 0 ≤ pa) (h2 : pa < pi * 2) :
    ∃ k : ℕ, k ≤ 59 ∧
      ((pyInt ((pa * 60) / (pi * 2))) : ℚ) * (pi * 2) / 60 = (k : ℚ) * (pi / 30) := by
  have h2pi : (0:ℚ) < pi * 2 := by positivity
  have hx0 : (0:ℚ) ≤ (pa * 60) / (pi * 2) := by positivity
  have hx1 : (pa * 60) / (pi * 2) < 60 := by
    rw [div_lt_iff₀ h2pi]
    linarith
  have hfl0 : (0:ℤ) ≤ ⌊(pa * 60) / (pi * 2)⌋ :=
    Int.le_floor.mpr (by rw [show ((0:ℤ):ℚ) = 0 by norm_num]; exact hx0)
  have hfl1 : ⌊(pa * 60) / (pi * 2)⌋ < 60 :=
    Int.floor_lt.mpr (by push_cast; exact hx1)
  refine ⟨⌊(pa * 60) / (pi * 2)⌋.toNat, by omega, ?_⟩
  rw [pyInt_of_nonneg hx0]
  have hc : ((⌊(pa * 60) / (pi * 2)⌋.toNat : ℕ) : ℚ) = ((⌊(pa * 60) / (pi * 2)⌋ : ℤ) : ℚ) := by
    rw [show ((⌊(pa * 60) / (pi * 2)⌋.toNat : ℕ) : ℚ)
        = ((⌊(pa * 60) / (pi * 2)⌋.toNat : ℤ) : ℚ) by push_cast; ring,
      Int.toNat_of_nonneg hfl0]
  rw [hc]
  ring

/-- C4: minute-drag coupling.  With the minutes hand grabbed, every motion
event computes exactly the step described by the claim
(`minutes_drag_spec`): delta = snapped pointer angle − current minutes
angle, hour angle incremented by delta/12, corrected by `−2π/12` if
`delta > π` and by `+2π/12` if `delta < −π`, AM/PM toggled exactly when the
resulting hour angle falls outside `[0, 2π)` and the hour angle
renormalised by `∓2π`.  In particular, grabbing minutes at angle 0 (with the
hour hand anywhere consistent with it, i.e. below `23π/12`) and dragging to
angle π in one motion event sets the minutes angle to π, increases the hour
angle by `π/12` and does not toggle AM/PM. -/
theorem minute_drag_coupling (pi : ℚ) (st : ClockState) (hpi : 0 < pi)
    (hg : st.handBeingGrabbed = some Hand.minutes) :
    (∀ pa0 : ℚ, motion_cb pi st true pa0 = minutes_drag_spec pi st pa0) ∧
    (st.handAngles.minutes = 0 → 0 ≤ st.handAngles.hour →
      st.handAngles.hour < pi * (23/12) →
      (motion_cb pi st true pi).handAngles.minutes = pi ∧
      (motion_cb pi st true pi).handAngles.hour = st.handAngles.hour + pi / 12 ∧
      (motion_cb pi st true pi).amPm = st.amPm) := by
  refine ⟨fun pa0 => motion_minutes_eq pi st pa0 hg, ?_⟩
  intro hmin h0 hlt
  rw [motion_minutes_eq pi st pi hg]
  unfold minutes_drag_spec
  have hpa : (if (pi:ℚ) < 0 then pi + pi * 2 else pi) = pi :=
    if_neg (not_lt.mpr (le_of_lt hpi))
  have hsn : ((pyInt ((pi * 60) / (pi * 2))) : ℚ) * (pi * 2) / 60 = pi := by
    have hpi0 : pi ≠ 0 := ne_of_gt hpi
    have h30 : (pi * 60) / (pi * 2) = ((30:ℤ) : ℚ) := by
      push_cast
      field_simp
      ring
    rw [h30, pyInt_intCast]
    push_cast
    ring
  simp only [hpa, hmin, sub_zero, hsn]
  rw [if_neg (lt_irrefl pi), if_neg (show ¬ pi < -pi by linarith)]
  rw [if_neg (show ¬ st.handAngles.hour + pi / 12 ≥ pi * 2 by push_neg; linarith),
    if_neg (show ¬ st.handAngles.hour + pi / 12 < 0 by push_neg; linarith),
    if_neg (show ¬ (st.handAngles.hour + pi / 12 ≥ pi * 2 ∨
      st.handAngles.hour + pi / 12 < 0) by rintro (hc | hc) <;> linarith)]
  exact ⟨trivial, rfl, rfl⟩

/-- Witness for C4: the scenario part at π ≈ 355/113, from the 12:00 AM
state with the minutes hand grabbed. -/
theorem minute_drag_coupling_witness :
    (motion_cb (355/113) (grabbedState Hand.minutes) true (355/113)).handAngles.minutes
        = 355/113 ∧
    (motion_cb (355/113) (grabbedState Hand.minutes) true (355/113)).handAngles.hour
        = (grabbedState Hand.minutes).handAngles.hour + (355/113) / 12 ∧
    (motion_cb (355/113) (grabbedState Hand.minutes) true (355/113)).amPm
        = (grabbedState Hand.minutes).amPm :=
  (minute_drag_coupling (355/113) (grabbedState Hand.minutes) (by norm_num) rfl).2
    rfl (by norm_num [grabbedState, sampleState]) (by norm_num [grabbedState, sampleState])

/-- Counterexample to C5 as stated: with the minutes hand grabbed at raw
pointer angle `π/100` (not a tick multiple), the stored minutes angle is the
snapped value 0, not the pointer angle — the source overwrites
`pointer_angle` with the snapped value before the final assignment. -/
theorem grabbed_minutes_snapped_cex :
    (motion_cb (355/113) (grabbedState Hand.minutes) true ((355/113) / 100)).handAngles.minutes
        = 0 ∧
    ((355:ℚ)/113) / 100 ≠ 0 := by
  constructor
  · rw [motion_minutes_stores (355/113) (grabbedState Hand.minutes) ((355/113) / 100) rfl]
    norm_num [pyInt]
  · norm_num

/-- C5 as amended: the hour and seconds hands, when grabbed, store the raw
normalized pointer angle; the minutes hand, when grabbed, stores the
pointer angle snapped down to a whole 1/60 turn (the snap applied for the
hour coupling overwrites the pointer variable before the final assignment). -/
theorem grabbed_hand_storage (pi : ℚ) (st : ClockState) (pa0 : ℚ) :
    (st.handBeingGrabbed = some Hand.hour →
      (motion_cb pi st true pa0).handAngles.hour = (if pa0 < 0 then pa0 + pi * 2 else pa0)) ∧
    (st.handBeingGrabbed = some Hand.seconds →
      (motion_cb pi st true pa0).handAngles.seconds = (if pa0 < 0 then pa0 + pi * 2 else pa0)) ∧
    (st.handBeingGrabbed = some Hand.minutes →
      (motion_cb pi st true pa0).handAngles.minutes =
        ((pyInt (((if pa0 < 0 then pa0 + pi * 2 else pa0) * 60) / (pi * 2))) : ℚ)
          * (pi * 2) / 60) :=
  ⟨fun hg => (motion_hour_stores pi st pa0 hg).1,
   fun hg => motion_seconds_stores pi st pa0 hg,
   fun hg => motion_minutes_stores pi st pa0 hg⟩

/-- Helper: the hand-selection loop is the first-match cascade over the
fixed order hour, minutes, seconds. -/
theorem find_grabbable_hand_eq (pi : ℚ) (angles : HandAngles) (sizes : Hand → ℚ)
    (pa d : ℚ) :
    find_grabbable_hand pi angles sizes pa d =
      (if in_range pi angles.hour pa = true ∧ d ≤ sizes Hand.hour then some Hand.hour
       else if in_range pi angles.minutes pa = true ∧ d ≤ sizes Hand.minutes then
        some Hand.minutes
       else if in_range pi angles.seconds pa = true ∧ d ≤ sizes Hand.seconds then
        some Hand.seconds
       else none) := by
  unfold find_grabbable_hand
  by_cases h1 : in_range pi angles.hour pa = true <;>
    by_cases h2 : in_range pi angles.minutes pa = true <;>
      by_cases h3 : in_range pi angles.seconds pa = true <;>
        by_cases g1 : d ≤ sizes Hand.hour <;>
          by_cases g2 : d ≤ sizes Hand.minutes <;>
            by_cases g3 : d ≤ sizes Hand.seconds <;>
              simp [List.find?, HandAngles.get, h1, h2, h3, g1, g2, g3]

/-- C7: grab priority.  On a press with button 1 held, hands are tested in
the fixed order hour, minutes, seconds, and the grabbed hand is the first
whose normalized angle is within the `_ANGLE_TOLERANCE` window of the
pointer angle and whose length is at least the pointer distance; whenever
the hour and the minutes hands both pass both tests, the hour hand is the
one grabbed. -/
theorem press_grab_priority (pi : ℚ) (st : ClockState) (pa0 pointer_distance : ℚ)
    (in_am_pm_area : Bool) (pointer_angle : ℚ)
    (hpa : pointer_angle = (if pa0 < 0 then pa0 + pi * 2 else pa0)) :
    (find_grabbable_hand pi st.handAngles st.handSizes pointer_angle pointer_distance =
      (if in_range pi st.handAngles.hour pointer_angle = true ∧
          pointer_distance ≤ st.handSizes Hand.hour then some Hand.hour
       else if in_range pi st.handAngles.minutes pointer_angle = true ∧
          pointer_distance ≤ st.handSizes Hand.minutes then some Hand.minutes
       else if in_range pi st.handAngles.seconds pointer_angle = true ∧
          pointer_distance ≤ st.handSizes Hand.seconds then some Hand.seconds
       else none)) ∧
    (in_range pi st.handAngles.hour pointer_angle = true →
     pointer_distance ≤ st.handSizes Hand.hour →
     in_range pi st.handAngles.minutes pointer_angle = true →
     pointer_distance ≤ st.handSizes Hand.minutes →
     (press_cb pi st true pa0 pointer_distance in_am_pm_area).1.handBeingGrabbed
        = some Hand.hour) := by
  constructor
  · exact find_grabbable_hand_eq pi st.handAngles st.handSizes pointer_angle pointer_distance
  · intro h1 h2 h3 h4
    have hfind : find_grabbable_hand pi st.handAngles st.handSizes
        (if pa0 < 0 then pa0 + pi * 2 else pa0) pointer_distance = some Hand.hour := by
      rw [← hpa, find_grabbable_hand_eq, if_pos ⟨h1, h2⟩]
    unfold press_cb
    simp only [Bool.not_true, Bool.false_eq_true, if_false, hfind]
    simp

/-- Witness for C7 at a concrete press: all hands at angle 0, pointer at
angle 0 and distance 0, sizes 50. -/
theorem press_grab_priority_witness :
    (find_grabbable_hand (355/113) sampleState.handAngles sampleState.handSizes 0 0 =
      (if in_range (355/113) sampleState.handAngles.hour 0 = true ∧
          (0:ℚ) ≤ sampleState.handSizes Hand.hour then some Hand.hour
       else if in_range (355/113) sampleState.handAngles.minutes 0 = true ∧
          (0:ℚ) ≤ sampleState.handSizes Hand.minutes then some Hand.minutes
       else if in_range (355/113) sampleState.handAngles.seconds 0 = true ∧
          (0:ℚ) ≤ sampleState.handSizes Hand.seconds then some Hand.seconds
       else none)) ∧
    (in_range (355/113) sampleState.handAngles.hour 0 = true →
     (0:ℚ) ≤ sampleState.handSizes Hand.hour →
     in_range (355/113) sampleState.handAngles.minutes 0 = true →
     (0:ℚ) ≤ sampleState.handSizes Hand.minutes →
     (press_cb (355/113) sampleState true 0 0 false).1.handBeingGrabbed = some Hand.hour) :=
  press_grab_priority (355/113) sampleState 0 0 false 0 (by norm_num)

/-- Counterexample to C8 as stated: turning grab mode off while the hour
hand is still grabbed leaves the grabbed-hand selector set — reaching a
state with grab mode disabled and `_hand_being_grabbed` non-empty. -/
theorem grab_mode_off_cex :
    (change_grab_hands_mode (grabbedState Hand.hour) false).1.grabHandsMode = false ∧
    (change_grab_hands_mode (grabbedState Hand.hour) false).1.handBeingGrabbed
        = some Hand.hour :=
  ⟨rfl, rfl⟩

/-- C8 as amended: turning grab mode off always restarts the periodic tick
and clears the mode flag, but does NOT clear `_hand_being_grabbed` — the
selector retains its prior value, so it is empty afterwards only if no hand
was grabbed at that moment. -/
theorem grab_mode_off_state (st : ClockState) :
    (change_grab_hands_mode st false).1.grabHandsMode = false ∧
    (change_grab_hands_mode st false).1.tickRunning = true ∧
    (change_grab_hands_mode st false).1.handBeingGrabbed = st.handBeingGrabbed :=
  ⟨rfl, rfl, rfl⟩

/-- C9: release semantics.  A release arriving while a hand is grabbed
clears the grabbed-hand selector, and emits `time_minute` iff the grabbed
hand was hour or minutes (never for seconds). -/
theorem release_semantics (st : ClockState) (hand : Hand)
    (hg : st.handBeingGrabbed = some hand) :
    (release_cb st).1.handBeingGrabbed = none ∧
    ((release_cb st).2 = true ↔ (hand = Hand.hour ∨ hand = Hand.minutes)) := by
  unfold release_cb
  rw [hg]
  exact ⟨rfl, by simp⟩

/-- Witness for C9: releasing the seconds hand. -/
theorem release_semantics_witness :
    (release_cb (grabbedState Hand.seconds)).1.handBeingGrabbed = none ∧
    ((release_cb (grabbedState Hand.seconds)).2 = true ↔
      (Hand.seconds = Hand.hour ∨ Hand.seconds = Hand.minutes)) :=
  release_semantics (grabbedState Hand.seconds) Hand.seconds rfl

/-- C10: the minutes-angle invariant.  After a tick, after a motion event
with the minutes hand grabbed (pointer angle in the `atan2` range), and
after a motion event with the hour hand grabbed (hour angle in its
nonnegative domain), the minutes hand angle is an exact multiple `k·π/30`
with `k ≤ 59` — hence in `[0, 2π)` — and on any such angle the derived
minute is exactly `k`, lies in 0–59, and is the minute of any datetime the
grab-mode `get_time` constructs. -/
theorem minutes_angle_invariant (pi : ℚ) (hpi : 0 < pi) :
    (∀ st h m s, m ≤ 59 →
      ∃ k : ℕ, k ≤ 59 ∧
        (update_cb pi st h m s).1.handAngles.minutes = (k : ℚ) * (pi / 30)) ∧
    (∀ st pa0, st.handBeingGrabbed = some Hand.minutes → -pi < pa0 → pa0 ≤ pi →
      ∃ k : ℕ, k ≤ 59 ∧
        (motion_cb pi st true pa0).handAngles.minutes = (k : ℚ) * (pi / 30)) ∧
    (∀ st pa0, st.handBeingGrabbed = some Hand.hour → 0 ≤ st.handAngles.hour →
      ∃ k : ℕ, k ≤ 59 ∧
        (motion_cb pi st true pa0).handAngles.minutes = (k : ℚ) * (pi / 30)) ∧
    (∀ angles am_pm, ∀ k : ℕ, k ≤ 59 → angles.minutes = (k : ℚ) * (pi / 30) →
      hands_minute pi angles = (k : ℤ) ∧
      (0 ≤ hands_minute pi angles ∧ hands_minute pi angles ≤ 59) ∧
      (∀ t, get_time_from_hands_angles pi angles am_pm = some t → t.minute = (k : ℤ))) := by
  have hpi0 : pi ≠ 0 := ne_of_gt hpi
  refine ⟨?_, ?_, ?_, ?_⟩
  · intro st h m s hm
    refine ⟨m, hm, ?_⟩
    rw [show (update_cb pi st h m s).1.handAngles.minutes = pi / 30 * (m : ℚ) from rfl]
    ring
  · intro st pa0 hg h1 h2
    obtain ⟨hn0, hn2⟩ := normalized_range pi pa0 hpi h1 h2
    obtain ⟨k, hk, hsnap⟩ := snapped_is_tick pi _ hpi hn0 hn2
    refine ⟨k, hk, ?_⟩
    rw [motion_minutes_stores pi st pa0 hg]
    exact hsnap
  · intro st pa0 hg hh
    obtain ⟨hb0, hb2⟩ :=
      reduce_2pi_bounds pi (st.handAngles.hour * 12) hpi (by positivity)
    obtain ⟨k, hk, hsnap⟩ := snapped_is_tick pi _ hpi hb0 hb2
    refine ⟨k, hk, ?_⟩
    rw [(motion_hour_stores pi st pa0 hg).2]
    exact hsnap
  · intro angles am_pm k hk hmin
    have hqk : ((angles.minutes * 60) / (pi * 2)) = ((k : ℤ) : ℚ) := by
      rw [hmin]
      push_cast
      field_simp
      ring
    have h1 : hands_minute pi angles = (k : ℤ) := by
      unfold hands_minute
      rw [hqk, pyRound_intCast]
    refine ⟨h1, ⟨by rw [h1]; omega, by rw [h1]; omega⟩, ?_⟩
    intro t ht
    unfold get_time_from_hands_angles at ht
    rw [(datetime_eq_some ht).2.1, h1]

/-- Witness for C10 at π ≈ 355/113. -/
theorem minutes_angle_invariant_witness :
    (∀ st h m s, m ≤ 59 →
      ∃ k : ℕ, k ≤ 59 ∧
        (update_cb (355/113) st h m s).1.handAngles.minutes = (k : ℚ) * ((355/113) / 30)) ∧
    (∀ st pa0, st.handBeingGrabbed = some Hand.minutes → -(355/113) < pa0 → pa0 ≤ 355/113 →
      ∃ k : ℕ, k ≤ 59 ∧
        (motion_cb (355/113) st true pa0).handAngles.minutes = (k : ℚ) * ((355/113) / 30)) ∧
    (∀ st pa0, st.handBeingGrabbed = some Hand.hour → 0 ≤ st.handAngles.hour →
      ∃ k : ℕ, k ≤ 59 ∧
        (motion_cb (355/113) st true pa0).handAngles.minutes = (k : ℚ) * ((355/113) / 30)) ∧
    (∀ angles am_pm, ∀ k : ℕ, k ≤ 59 → angles.minutes = (k : ℚ) * ((355/113) / 30) →
      hands_minute (355/113) angles = (k : ℤ) ∧
      (0 ≤ hands_minute (355/113) angles ∧ hands_minute (355/113) angles ≤ 59) ∧
      (∀ t, get_time_from_hands_angles (355/113) angles am_pm = some t →
        t.minute = (k : ℤ))) :=
  minutes_angle_invariant (355/113) (by norm_num)

/-- Helper: one minutes-drag motion event, evaluated against precomputed
normalized pointer angle, snapped angle and corrected hour angle, under the
assumption that the corrected hour angle is not negative (the case in any
clockwise drag from a state with nonnegative hour angle). -/
theorem minutes_drag_step (pi : ℚ) (st : ClockState) (pa0 pa snapped hour2v : ℚ)
    (hg : st.handBeingGrabbed = some Hand.minutes)
    (hnorm : (if pa0 < 0 then pa0 + pi * 2 else pa0) = pa)
    (hsnap : ((pyInt ((pa * 60) / (pi * 2))) : ℚ) * (pi * 2) / 60 = snapped)
    (hhour2 : (if snapped - st.handAngles.minutes > pi then
        st.handAngles.hour + (snapped - st.handAngles.minutes) / 12 - pi * 2 / 12
      else if snapped - st.handAngles.minutes < -pi then
        st.handAngles.hour + (snapped - st.handAngles.minutes) / 12 + pi * 2 / 12
      else st.handAngles.hour + (snapped - st.handAngles.minutes) / 12) = hour2v)
    (hnn : ¬ hour2v < 0) :
    motion_cb pi st true pa0 =
      { st with
          handAngles :=
            { hour := if hour2v ≥ pi * 2 then hour2v - pi * 2 else hour2v
              minutes := snapped
              seconds := st.handAngles.seconds }
          amPm := if hour2v ≥ pi * 2 then toggle_am_pm st.amPm else st.amPm } := by
  rw [motion_minutes_eq pi st pa0 hg]
  unfold minutes_drag_spec
  simp only [hnorm, hsnap, hhour2]
  by_cases hw : hour2v ≥ pi * 2
  · simp [hw]
  · simp [hw, hnn]

/-- Helper: toggling the AM/PM flag always changes it. -/
theorem toggle_am_pm_ne (a : AmPm) : toggle_am_pm a ≠ a := by
  cases a <;> simp [toggle_am_pm]

/-- Helper: minutes-drag motion event from the 12 position (minutes angle 0)
to the 4 position (pointer angle `2π/3`). -/
theorem drag_step_from_0 (pi : ℚ) (st : ClockState) (hpi : 0 < pi)
    (hg : st.handBeingGrabbed = some Hand.minutes)
    (hmin : st.handAngles.minutes = 0)
    (hnn : ¬ st.handAngles.hour + pi / 18 < 0) :
    motion_cb pi st true (pi * (2/3)) =
      { st with
          handAngles :=
            { hour := if st.handAngles.hour + pi / 18 ≥ pi * 2
                      then st.handAngles.hour + pi / 18 - pi * 2
                      else st.handAngles.hour + pi / 18
              minutes := pi * (2/3)
              seconds := st.handAngles.seconds }
          amPm := if st.handAngles.hour + pi / 18 ≥ pi * 2
                  then toggle_am_pm st.amPm else st.amPm } := by
  refine minutes_drag_step pi st (pi * (2/3)) (pi * (2/3)) (pi * (2/3))
      (st.handAngles.hour + pi / 18) hg ?_ ?_ ?_ hnn
  · exact if_neg (by push_neg; linarith)
  · rw [show (pi * (2/3) * 60) / (pi * 2) = ((20:ℤ) : ℚ) by
      push_cast
      rw [div_eq_iff (ne_of_gt (show (0:ℚ) < pi * 2 by linarith))]
      ring]
    rw [pyInt_intCast]
    push_cast
    ring
  · rw [hmin, sub_zero,
      if_neg (show ¬ pi * (2/3) > pi by push_neg; linarith),
      if_neg (show ¬ pi * (2/3) < -pi by push_neg; linarith)]
    ring

/-- Helper: minutes-drag motion event from the 4 position (minutes angle
`2π/3`) to the 8 position (raw pointer angle `−2π/3`, normalised `4π/3`). -/
theorem drag_step_from_23 (pi : ℚ) (st : ClockState) (hpi : 0 < pi)
    (hg : st.handBeingGrabbed = some Hand.minutes)
    (hmin : st.handAngles.minutes = pi * (2/3))
    (hnn : ¬ st.handAngles.hour + pi / 18 < 0) :
    motion_cb pi st true (-(pi * (2/3))) =
      { st with
          handAngles :=
            { hour := if st.handAngles.hour + pi / 18 ≥ pi * 2
                      then st.handAngles.hour + pi / 18 - pi * 2
                      else st.handAngles.hour + pi / 18
              minutes := pi * (4/3)
              seconds := st.handAngles.seconds }
          amPm := if st.handAngles.hour + pi / 18 ≥ pi * 2
                  then toggle_am_pm st.amPm else st.amPm } := by
  refine minutes_drag_step pi st (-(pi * (2/3))) (pi * (4/3)) (pi * (4/3))
      (st.handAngles.hour + pi / 18) hg ?_ ?_ ?_ hnn
  · rw [if_pos (show -(pi * (2/3)) < 0 by linarith)]
    ring
  · rw [show (pi * (4/3) * 60) / (pi * 2) = ((40:ℤ) : ℚ) by
      push_cast
      rw [div_eq_iff (ne_of_gt (show (0:ℚ) < pi * 2 by linarith))]
      ring]
    rw [pyInt_intCast]
    push_cast
    ring
  · rw [hmin, show pi * (4/3) - pi * (2/3) = pi * (2/3) by ring,
      if_neg (show ¬ pi * (2/3) > pi by push_neg; linarith),
      if_neg (show ¬ pi * (2/3) < -pi by push_neg; linarith)]
    ring

/-- Helper: minutes-drag motion event from the 8 position (minutes angle
`4π/3`) back to the 12 position (pointer angle 0), completing the turn; the
wrap correction `+2π/12` fires since the snapped delta is `−4π/3 < −π`. -/
theorem drag_step_from_43 (pi : ℚ) (st : ClockState) (hpi : 0 < pi)
    (hg : st.handBeingGrabbed = some Hand.minutes)
    (hmin : st.handAngles.minutes = pi * (4/3))
    (hnn : ¬ st.handAngles.hour + pi / 18 < 0) :
    motion_cb pi st true 0 =
      { st with
          handAngles :=
            { hour := if st.handAngles.hour + pi / 18 ≥ pi * 2
                      then st.handAngles.hour + pi / 18 - pi * 2
                      else st.handAngles.hour + pi / 18
              minutes := 0
              seconds := st.handAngles.seconds }
          amPm := if st.handAngles.hour + pi / 18 ≥ pi * 2
                  then toggle_am_pm st.amPm else st.amPm } := by
  refine minutes_drag_step pi st 0 0 0
      (st.handAngles.hour + pi / 18) hg ?_ ?_ ?_ hnn
  · exact if_neg (lt_irrefl 0)
  · rw [show ((0:ℚ) * 60) / (pi * 2) = ((0:ℤ) : ℚ) by norm_num]
    rw [pyInt_intCast]
    norm_num
  · rw [hmin,
      if_neg (show ¬ (0:ℚ) - pi * (4/3) > pi by push_neg; linarith),
      if_pos (show (0:ℚ) - pi * (4/3) < -pi by linarith)]
    ring

set_option maxHeartbeats 2000000 in
/-- C6 as amended: a drag gesture taking the minutes hand through exactly
one full clockwise turn (12 → 4 → 8 → 12 positions) changes the hour angle
by exactly `2π/12` net; AM/PM toggles exactly once when the hour angle
starts in the last twelfth of the dial (`[11π/6, 2π)`, where the `+2π/12`
advance wraps it past 12), and does not toggle at all otherwise. -/
theorem full_turn_drag (pi : ℚ) (st : ClockState) (hpi : 0 < pi)
    (hg : st.handBeingGrabbed = some Hand.minutes)
    (hmin : st.handAngles.minutes = 0)
    (h0 : 0 ≤ st.handAngles.hour) (h2 : st.handAngles.hour < pi * 2) :
    (run_motions pi st [pi * (2/3), -(pi * (2/3)), 0]).handAngles.minutes = 0 ∧
    (run_motions pi st [pi * (2/3), -(pi * (2/3)), 0]).handAngles.hour =
      (if st.handAngles.hour + pi * 2 / 12 ≥ pi * 2
       then st.handAngles.hour + pi * 2 / 12 - pi * 2
       else st.handAngles.hour + pi * 2 / 12) ∧
    toggle_count pi st [pi * (2/3), -(pi * (2/3)), 0] =
      (if st.handAngles.hour ≥ pi * (11/6) then 1 else 0) := by
  have e1 := drag_step_from_0 pi st hpi hg hmin (by push_neg; linarith)
  have hg2 : (motion_cb pi st true (pi * (2/3))).handBeingGrabbed = some Hand.minutes :=
    (motion_preserves_grabbed pi st true (pi * (2/3))).1.trans hg
  have hmin2 : (motion_cb pi st true (pi * (2/3))).handAngles.minutes = pi * (2/3) := by
    rw [e1]
  have hnn2 : ¬ (motion_cb pi st true (pi * (2/3))).handAngles.hour + pi / 18 < 0 := by
    rw [e1]
    simp only []
    push_neg
    split_ifs <;> linarith
  have e2 := drag_step_from_23 pi (motion_cb pi st true (pi * (2/3))) hpi hg2 hmin2 hnn2
  have hg3 : (motion_cb pi (motion_cb pi st true (pi * (2/3))) true
      (-(pi * (2/3)))).handBeingGrabbed = some Hand.minutes :=
    (motion_preserves_grabbed pi _ true (-(pi * (2/3)))).1.trans hg2
  have hmin3 : (motion_cb pi (motion_cb pi st true (pi * (2/3))) true
      (-(pi * (2/3)))).handAngles.minutes = pi * (4/3) := by
    rw [e2]
  have hnn3 : ¬ (motion_cb pi (motion_cb pi st true (pi * (2/3))) true
      (-(pi * (2/3)))).handAngles.hour + pi / 18 < 0 := by
    rw [e2, e1]
    simp only []
    push_neg
    split_ifs <;> linarith
  have e3 := drag_step_from_43 pi
    (motion_cb pi (motion_cb pi st true (pi * (2/3))) true (-(pi * (2/3)))) hpi hg3 hmin3 hnn3
  refine ⟨?_, ?_, ?_⟩
  · simp only [run_motions]
    rw [e3]
  · simp only [run_motions]
    rw [e3, e2, e1]
    simp only []
    by_cases hc1 : st.handAngles.hour + pi / 18 ≥ pi * 2
    · simp only [hc1, if_true, if_false]
      rw [if_neg (show ¬ st.handAngles.hour + pi / 18 - pi * 2 + pi / 18 ≥ pi * 2 by
          push_neg; linarith),
        if_neg (show ¬ st.handAngles.hour + pi / 18 - pi * 2 + pi / 18 + pi / 18 ≥ pi * 2 by
          push_neg; linarith),
        if_pos (show st.handAngles.hour + pi * 2 / 12 ≥ pi * 2 by linarith)]
      ring
    · simp only [hc1, if_true, if_false]
      by_cases hc2 : st.handAngles.hour + pi / 18 + pi / 18 ≥ pi * 2
      · simp only [hc2, if_true, if_false]
        rw [if_neg (show ¬ st.handAngles.hour + pi / 18 + pi / 18 - pi * 2 + pi / 18 ≥ pi * 2 by
            push_neg; linarith),
          if_pos (show st.handAngles.hour + pi * 2 / 12 ≥ pi * 2 by linarith)]
        ring
      · simp only [hc2, if_true, if_false]
        by_cases hc3 : st.handAngles.hour + pi / 18 + pi / 18 + pi / 18 ≥ pi * 2
        · simp only [hc3, if_true, if_false]
          rw [if_pos (show st.handAngles.hour + pi * 2 / 12 ≥ pi * 2 by linarith)]
          ring
        · simp only [hc3, if_true, if_false]
          rw [if_neg (show ¬ st.handAngles.hour + pi * 2 / 12 ≥ pi * 2 by push_neg; linarith)]
          ring
  · simp only [toggle_count]
    rw [e3, e2, e1]
    simp only []
    have ht := toggle_am_pm_ne st.amPm
    by_cases hc1 : st.handAngles.hour + pi / 18 ≥ pi * 2
    · have hd2 : ¬ st.handAngles.hour + pi / 18 - pi * 2 + pi / 18 ≥ pi * 2 := by
        push_neg; linarith
      have hd3 : ¬ st.handAngles.hour + pi / 18 - pi * 2 + pi / 18 + pi / 18 ≥ pi * 2 := by
        push_neg; linarith
      have hr : st.handAngles.hour ≥ pi * (11/6) := by linarith
      simp only [hc1, hd2, hd3, hr, ht, if_true, if_false]
    · by_cases hc2 : st.handAngles.hour + pi / 18 + pi / 18 ≥ pi * 2
      · have hd3 : ¬ st.handAngles.hour + pi / 18 + pi / 18 - pi * 2 + pi / 18 ≥ pi * 2 := by
          push_neg; linarith
        have hr : st.handAngles.hour ≥ pi * (11/6) := by linarith
        simp only [hc1, hc2, hd3, hr, ht, if_true, if_false]
      · by_cases hc3 : st.handAngles.hour + pi / 18 + pi / 18 + pi / 18 ≥ pi * 2
        · have hr : st.handAngles.hour ≥ pi * (11/6) := by linarith
          simp only [hc1, hc2, hc3, hr, ht, if_true, if_false]
        · have hrn : ¬ st.handAngles.hour ≥ pi * (11/6) := by push_neg; linarith
          simp only [hc1, hc2, hc3, hrn, ht, if_true, if_false]

/-- Counterexample to C6 as stated: the same full clockwise turn of the
minutes hand starting from 12:00 AM (hour angle 0) does change the hour
angle by exactly `2π/12` net, but toggles AM/PM zero times, not exactly
once — the flag only toggles when the hour hand itself wraps past 12. -/
theorem full_turn_drag_cex :
    toggle_count (355/113) (grabbedState Hand.minutes)
        [(355/113) * (2/3), -((355/113) * (2/3)), 0] = 0 ∧
    (run_motions (355/113) (grabbedState Hand.minutes)
        [(355/113) * (2/3), -((355/113) * (2/3)), 0]).amPm
      = (grabbedState Hand.minutes).amPm ∧
    (run_motions (355/113) (grabbedState Hand.minutes)
        [(355/113) * (2/3), -((355/113) * (2/3)), 0]).handAngles.minutes = 0 ∧
    (run_motions (355/113) (grabbedState Hand.minutes)
        [(355/113) * (2/3), -((355/113) * (2/3)), 0]).handAngles.hour
      = (355/113) * 2 / 12 := by
  have hpi : (0:ℚ) < 355/113 := by norm_num
  have e1 := drag_step_from_0 (355/113) (grabbedState Hand.minutes) hpi rfl rfl
    (by norm_num [grabbedState, sampleState])
  have hg2 := (motion_preserves_grabbed (355/113) (grabbedState Hand.minutes) true
    ((355/113) * (2/3))).1.trans (rfl : (grabbedState Hand.minutes).handBeingGrabbed
      = some Hand.minutes)
  have hmin2 : (motion_cb (355/113) (grabbedState Hand.minutes) true
      ((355/113) * (2/3))).handAngles.minutes = (355/113) * (2/3) := by
    rw [e1]
  have hnn2 : ¬ (motion_cb (355/113) (grabbedState Hand.minutes) true
      ((355/113) * (2/3))).handAngles.hour + (355/113) / 18 < 0 := by
    rw [e1]
    norm_num [grabbedState, sampleState]
  have e2 := drag_step_from_23 (355/113) (motion_cb (355/113) (grabbedState Hand.minutes) true
    ((355/113) * (2/3))) hpi hg2 hmin2 hnn2
  have hg3 := (motion_preserves_grabbed (355/113) _ true (-((355/113) * (2/3)))).1.trans hg2
  have hmin3 : (motion_cb (355/113) (motion_cb (355/113) (grabbedState Hand.minutes) true
      ((355/113) * (2/3))) true (-((355/113) * (2/3)))).handAngles.minutes
      = (355/113) * (4/3) := by
    rw [e2]
  have hnn3 : ¬ (motion_cb (355/113) (motion_cb (355/113) (grabbedState Hand.minutes) true
      ((355/113) * (2/3))) true (-((355/113) * (2/3)))).handAngles.hour + (355/113) / 18
      < 0 := by
    rw [e2, e1]
    norm_num [grabbedState, sampleState]
  have e3 := drag_step_from_43 (355/113) (motion_cb (355/113) (motion_cb (355/113)
    (grabbedState Hand.minutes) true ((355/113) * (2/3))) true (-((355/113) * (2/3))))
    hpi hg3 hmin3 hnn3
  refine ⟨?_, ?_, ?_, ?_⟩
  · simp only [toggle_count]
    rw [e3, e2, e1]
    norm_num [grabbedState, sampleState]
  · simp only [run_motions]
    rw [e3, e2, e1]
    norm_num [grabbedState, sampleState]
  · simp only [run_motions]
    rw [e3]
  · simp only [run_motions]
    rw [e3, e2, e1]
    norm_num [grabbedState, sampleState]

/-- Witness for the amended C6: the same concrete full-turn run, where the
amended toggle condition (initial hour angle in the last twelfth) is false
and the count is 0. -/
theorem full_turn_drag_witness :
    (run_motions (355/113) (grabbedState Hand.minutes)
        [(355/113) * (2/3), -((355/113) * (2/3)), 0]).handAngles.minutes = 0 ∧
    (run_motions (355/113) (grabbedState Hand.minutes)
        [(355/113) * (2/3), -((355/113) * (2/3)), 0]).handAngles.hour =
      (if (grabbedState Hand.minutes).handAngles.hour + (355/113) * 2 / 12 ≥ (355/113) * 2
       then (grabbedState Hand.minutes).handAngles.hour + (355/113) * 2 / 12 - (355/113) * 2
       else (grabbedState Hand.minutes).handAngles.hour + (355/113) * 2 / 12) ∧
    toggle_count (355/113) (grabbedState Hand.minutes)
        [(355/113) * (2/3), -((355/113) * (2/3)), 0] =
      (if (grabbedState Hand.minutes).handAngles.hour ≥ (355/113) * (11/6) then 1 else 0) :=
  full_turn_drag (355/113) (grabbedState Hand.minutes) (by norm_num) rfl rfl
    (by norm_num [grabbedState, sampleState]) (by norm_num [grabbedState, sampleState])

end Clock
